import Mathlib

/-!
Verification development for the core of the `asyncio-redis` client library
(file `asyncio_redis/__init__.py`).

The embedding models:

* the incremental RESP decoder (`RedisProtocol.data_received`,
  `_line_received`, `_handle_bulk_reply_part` and the `_handle_*_reply`
  dispatchers);
* the reply-queue bookkeeping (`_push_answer`, `_handle_multi_bulk_reply`);
* the request/answer path (`_send_command`, `_get_answer`, `_query`);
* connection teardown (`connection_lost`), transactions (`_exec`,
  `_discard`) and the pool (`Connection._get_free_protocol`,
  `Connection.__getattr__`).

Python byte strings are modelled as `List Nat` (one `Nat` per byte); Python
`str` payloads are kept at the byte level (the library's `_decode`/`_encode`
are utf-8 byte/text conversions, which are the identity on the ASCII data
exercised here).  Futures are modelled by identifiers drawn from a counter,
and "resolving" a future is recorded in an explicit log of
`(future id, value)` pairs.
-/

namespace AsyncioRedis

/-- Python `bytes`, one `Nat` per byte. -/
abbrev Bytes := List Nat

/-- Byte string of an ASCII string literal (codepoint = byte for ASCII,
matching the library's default utf-8 encoding on ASCII data). -/
def strBytes (s : String) : Bytes := s.data.map Char.toNat

/-- The RESP line terminator `\r\n`. -/
def CRLF : Bytes := [13, 10]

/-- A decoded reply value, i.e. the argument the parser hands to
`_push_answer` (or, for multi-bulk headers, the `MultiBulkReply(count)`
object).  `err` is the `RedisException` built from an error line (an
`Exception` value travelling through the queue); `nil` is Python `None`
(null bulk reply). -/
inductive Answer where
  | status (line : Bytes)
  | err (line : Bytes)
  | int (n : Int)
  | bulk (payload : Bytes)
  | nil
  | multiBulk (count : Int)
deriving DecidableEq, Repr

/-- Helper for `pyInt?`: value of a nonempty ASCII digit string. -/
def digitsValAux : Bytes → Nat → Option Nat
  | [], acc => some acc
  | b :: t, acc =>
    if 48 ≤ b ∧ b ≤ 57 then digitsValAux t (acc * 10 + (b - 48)) else none

/-- Python `int(line)` on the byte strings the decoder meets: an optional
minus sign followed by at least one ASCII digit.  (Python's `int` also
tolerates surrounding whitespace and an explicit plus sign; no well-formed
RESP frame uses those, and any other input raises `ValueError`, modelled as
`none`.) -/
def pyInt? (l : Bytes) : Option Int :=
  match l with
  | 45 :: t =>
    match t with
    | [] => none
    | _ => (digitsValAux t 0).map (fun n => -(n : Int))
  | [] => none
  | t => (digitsValAux t 0).map (fun n => (n : Int))

/-- Python slice `b[:n]` for an `int` bound `n` (negative bounds count from
the end, clamping at zero). -/
def pyTake (b : Bytes) (n : Int) : Bytes :=
  if 0 ≤ n then b.take n.toNat else b.take (b.length - (-n).toNat)

/-- Parser state of a `RedisProtocol` instance: `self._buffer`,
`self._in_bulk_reply`, `self._bulk_reply_len`, `self._bulk_reply_buffer`. -/
structure DState where
  buffer : Bytes
  inBulk : Bool
  bulkLen : Int
  bulkAccum : Bytes
deriving DecidableEq, Repr

/-- Index of the first occurrence of `\r\n`, i.e. the split position of
`buffer.split(b'\r\n', 1)`; `none` when `b'\r\n' in buffer` is false. -/
def findCRLF : Bytes → Option Nat
  | [] => none
  | b :: rest =>
    match rest with
    | [] => none
    | c :: _ =>
      if b = 13 ∧ c = 10 then some 0 else (findCRLF rest).map (· + 1)

/-- Continuation byte of a utf-8 sequence: `0x80`–`0xBF`. -/
def isCont (b : Nat) : Bool := decide (128 ≤ b ∧ b ≤ 191)

/-- Strict utf-8 validity of a byte string — the domain on which Python's
`bytes.decode('utf-8')` (the engine's `_decode`) returns instead of
raising `UnicodeDecodeError`.  The lead-byte table rejects overlong
forms (`0xC0`/`0xC1`, `0xE0 0x80`–`0x9F`, `0xF0 0x80`–`0x8F`), surrogates
(`0xED 0xA0`–`0xBF`) and code points beyond `U+10FFFF`
(`0xF4 0x90`–, `0xF5`–`0xFF`). -/
def validUtf8 : Bytes → Bool
  | [] => true
  | b :: t =>
    if b ≤ 127 then validUtf8 t
    else if 194 ≤ b ∧ b ≤ 223 then
      match t with
      | c1 :: t1 => isCont c1 && validUtf8 t1
      | _ => false
    else if b = 224 then
      match t with
      | c1 :: c2 :: t2 => decide (160 ≤ c1 ∧ c1 ≤ 191) && isCont c2 && validUtf8 t2
      | _ => false
    else if 225 ≤ b ∧ b ≤ 236 then
      match t with
      | c1 :: c2 :: t2 => isCont c1 && isCont c2 && validUtf8 t2
      | _ => false
    else if b = 237 then
      match t with
      | c1 :: c2 :: t2 => decide (128 ≤ c1 ∧ c1 ≤ 159) && isCont c2 && validUtf8 t2
      | _ => false
    else if 238 ≤ b ∧ b ≤ 239 then
      match t with
      | c1 :: c2 :: t2 => isCont c1 && isCont c2 && validUtf8 t2
      | _ => false
    else if b = 240 then
      match t with
      | c1 :: c2 :: c3 :: t3 =>
        decide (144 ≤ c1 ∧ c1 ≤ 191) && isCont c2 && isCont c3 && validUtf8 t3
      | _ => false
    else if 241 ≤ b ∧ b ≤ 243 then
      match t with
      | c1 :: c2 :: c3 :: t3 => isCont c1 && isCont c2 && isCont c3 && validUtf8 t3
      | _ => false
    else if b = 244 then
      match t with
      | c1 :: c2 :: c3 :: t3 =>
        decide (128 ≤ c1 ∧ c1 ≤ 143) && isCont c2 && isCont c3 && validUtf8 t3
      | _ => false
    else false

/-- Model of `_handle_bulk_reply(line)`: dispatch on `int(line)` after a `$`. -/
def handleBulkHeader (s : DState) (line : Bytes) : DState × List Answer × Bool :=
  match pyInt? line with
  | none => (s, [], false)        -- int(line) raises ValueError
  | some n =>
    if n = -1 then (s, [Answer.nil], true)   -- null bulk reply
    else ({ s with inBulk := true, bulkLen := n, bulkAccum := [] }, [], true)

/-- Model of `_line_received(line)`: dispatch on `line[:1]`.  The third component is
`false` when the handler raises: `int()` failures, and
`_handle_status_reply`'s `line.decode('ascii')`, which raises
`UnicodeDecodeError` on any byte above `0x7F` before `_push_answer`
runs.  (`_handle_error_reply` wraps the raw bytes in `RedisException`
without decoding, so it never raises.)  An unknown first byte merely
prints `'err...'` and continues. -/
def lineReceived (s : DState) (line : Bytes) : DState × List Answer × Bool :=
  let firstByte := line.take 1
  let rest := line.drop 1
  if firstByte = [43] then                                         -- b'+'
    if rest.all (fun b => decide (b ≤ 127)) then
      (s, [Answer.status rest], true)
    else (s, [], false)
  else if firstByte = [45] then (s, [Answer.err rest], true)       -- b'-'
  else if firstByte = [36] then handleBulkHeader s rest            -- b'$'
  else if firstByte = [42] then                                    -- b'*'
    match pyInt? rest with
    | none => (s, [], false)
    | some n => (s, [Answer.multiBulk n], true)
  else if firstByte = [58] then                                    -- b':'
    match pyInt? rest with
    | none => (s, [], false)
    | some n => (s, [Answer.int n], true)
  else (s, [], true)                       -- print('err...', line): ignored

/-- Model of `_handle_bulk_reply_part(line)`: accumulate the split piece plus the
`\r\n` that was consumed, and emit the bulk payload once the accumulated
length exceeds the announced length.  The emitted value goes through
`self._decode` (utf-8): on invalid utf-8 that call raises
`UnicodeDecodeError` *before* `_push_answer` and before the
`_in_bulk_reply = False` reset, so the accumulator keeps the appended
piece and the parser stays stuck in bulk mode. -/
def bulkReplyPart (s : DState) (line : Bytes) : DState × List Answer × Bool :=
  let accum := s.bulkAccum ++ line ++ CRLF
  if s.bulkLen < (accum.length : Int) then
    if validUtf8 (pyTake accum s.bulkLen) then
      ({ s with inBulk := false, bulkLen := 0, bulkAccum := [] },
       [Answer.bulk (pyTake accum s.bulkLen)], true)
    else
      ({ s with bulkAccum := accum }, [], false)
  else
    ({ s with bulkAccum := accum }, [], true)

/-- One iteration of the `while` loop body of `data_received`: dispatch the
split-off line on the current mode. -/
def consumeLine (s : DState) (line : Bytes) : DState × List Answer × Bool :=
  if s.inBulk then bulkReplyPart s line
  else lineReceived s line

/-- The `while b'\r\n' in self._buffer` loop of `data_received`, with an
explicit fuel argument (the loop consumes at least two buffer bytes per
iteration, so `buffer.length` fuel always suffices; see `dataLoopFuel_ge`).
The `Bool` result is `false` when a handler raised mid-loop, in which case
the loop stops with the buffer already advanced past the offending line —
exactly the state the Python object is left in when the exception
propagates out of `data_received`. -/
def dataLoopFuel : Nat → DState → DState × List Answer × Bool
  | 0, s => (s, [], true)
  | fuel + 1, s =>
    match findCRLF s.buffer with
    | none => (s, [], true)
    | some i =>
      let step := consumeLine s (s.buffer.take i)
      let rest := s.buffer.drop (i + 2)
      if step.2.2 then
        let next := dataLoopFuel fuel { step.1 with buffer := rest }
        (next.1, step.2.1 ++ next.2.1, next.2.2)
      else ({ step.1 with buffer := rest }, step.2.1, false)

/-- The drained `while` loop of `data_received`, starting from state `s`. -/
def dataLoop (s : DState) : DState × List Answer × Bool :=
  dataLoopFuel s.buffer.length s

/-- Model of `data_received(data)`: append the chunk to the buffer and drain all
complete lines. -/
def dataReceived (s : DState) (data : Bytes) : DState × List Answer × Bool :=
  dataLoop { s with buffer := s.buffer ++ data }

/-- Feed a sequence of chunks through successive `data_received` calls,
concatenating the emitted answers.  (An exception escaping one call does not
prevent later calls, as in the event loop.) -/
def feedAll (s : DState) : List Bytes → DState × List Answer
  | [] => (s, [])
  | c :: cs =>
    let (s1, out, _) := dataReceived s c
    let (s2, out2) := feedAll s1 cs
    (s2, out ++ out2)

/-- Parser state right after `connection_made`. -/
def initState : DState := ⟨[], false, 0, []⟩

/-! ## Reply-queue bookkeeping (`self._queue`, `_push_answer`,
`_handle_multi_bulk_reply`)

Futures are identified by numbers drawn from a `nextFid` counter;
`resolutions` logs every completed future together with the value it was
completed with (`set_result`, or `set_exception` for an `Answer.err`). -/

/-- The reply-queue side of the engine state: `queue` is `self._queue`
(head = the `popleft` end, tail = the `append` end). -/
structure QState where
  queue : List Nat
  nextFid : Nat
  resolutions : List (Nat × Answer)
deriving DecidableEq, Repr

/-- Model of `_push_answer(answer)`: `f = self._queue.popleft()` then complete `f`
with the answer (`set_exception` when the answer is an `Exception`, i.e.
`Answer.err`).  A `popleft` on an empty deque raises `IndexError` in
Python; that never happens while the queue invariant holds, and is
modelled as a no-op. -/
def pushAnswer (st : QState) (answer : Answer) : QState :=
  match st.queue with
  | [] => st
  | f :: rest =>
    { st with queue := rest, resolutions := st.resolutions ++ [(f, answer)] }

/-- Model of `_handle_multi_bulk_reply` at the queue level: outside pub/sub the
`MultiBulkReply(count)` object is pushed as the answer; then `count` fresh
futures are created and `appendleft`-ed in reverse, leaving them at the
head of the queue in creation order.  (`range(count)` is empty for a
negative count.)  In pub/sub mode the header is handed to
`_handle_pubsub_multibulk_reply` instead of being pushed. -/
def handleMultiBulk (st : QState) (inPubsub : Bool) (count : Int) : QState :=
  let st1 := if inPubsub then st else pushAnswer st (Answer.multiBulk count)
  let fresh := (List.range count.toNat).map (fun k => st1.nextFid + k)
  { st1 with queue := fresh ++ st1.queue, nextFid := st1.nextFid + count.toNat }

/-- Dispatch of one decoded reply against the reply queue: multi-bulk
headers go through `_handle_multi_bulk_reply`, everything else is pushed
directly (`_handle_status_reply`, `_handle_int_reply`,
`_handle_error_reply`, bulk and null replies). -/
def dispatchAnswer (st : QState) (inPubsub : Bool) (a : Answer) : QState :=
  match a with
  | Answer.multiBulk n => handleMultiBulk st inPubsub n
  | a => pushAnswer st a

/-! ## The request/answer path (`_send_command`, `_get_answer`, `_query`),
transactions and `connection_lost` -/

/-- A `PipelinedCall(cmd, is_blocking)` record, tagged with a creation
counter `cid` standing for the Python object's identity. -/
structure PipelinedCall where
  cid : Nat
  cmd : Bytes
  isBlocking : Bool
deriving DecidableEq, Repr

/-- One entry of `self._transaction_response_queue`:
`(user future, post_process_func, call)`. -/
structure TxEntry where
  fid : Nat
  post : Option (Answer → Answer)
  call : Option PipelinedCall

/-- Exceptions raised on the request path. -/
inductive PyError where
  | redis (msg : Bytes)   -- RedisException(msg)
  | attrError             -- AttributeError from StatusReply.__eq__
  | assertError           -- a failed assert
  | indexError            -- popleft from an empty deque
  | typeError             -- iterating a non-iterable reply
deriving DecidableEq, Repr

/-- Result of awaiting `_get_answer` / `_query`: a returned value, the
detached future returned inside a transaction, or a raised exception. -/
inductive Outcome where
  | value (a : Answer)
  | futureRef (fid : Nat)
  | raised (e : PyError)

/-- Python `answer == StatusReply(s)`: a `StatusReply` operand compares
statuses; any other operand falls through to the reflected
`StatusReply.__eq__`, whose `other.status` access raises
`AttributeError`.  (Note `Answer.err` never reaches such a comparison: the
preceding `yield from` re-raises the stored exception.) -/
def pyEqStatus (a : Answer) (s : Bytes) : Except PyError Bool :=
  match a with
  | Answer.status t => Except.ok (t = s)
  | _ => Except.error PyError.attrError

/-- Engine state for the request path: the reply queue (future ids), the
`_pipelined_calls` set, the transaction flag and
`_transaction_response_queue`, plus the two freshness counters. -/
structure ProtoState where
  queue : List Nat
  nextFid : Nat
  pipelinedCalls : List PipelinedCall
  nextCid : Nat
  inTransaction : Bool
  txQueue : List TxEntry

/-- Message of `RedisException('Expected to receive QUEUED for query in transaction, received %r.')`. -/
def expectedQueuedMsg : Bytes := strBytes "Expected to receive QUEUED for query in transaction"

/-- Model of `_get_answer(_bypass, post_process_func, call)`, written as a function
of the value `result` that the freshly appended reply-queue future is
eventually resolved with by `_push_answer`.  An `Answer.err` resolution
means the future holds an exception, so `result = yield from f` raises it
(and nothing after the `yield` runs — in particular the pipelined call
is *not* removed). -/
def getAnswer (st : ProtoState) (result : Answer) (bypass : Bool)
    (post : Option (Answer → Answer)) (call : Option PipelinedCall) :
    ProtoState × Outcome :=
  match result with
  | Answer.err e => (st, Outcome.raised (PyError.redis e))
  | r =>
    if st.inTransaction && !bypass then
      match pyEqStatus r (strBytes "QUEUED") with
      | Except.error e => (st, Outcome.raised e)
      | Except.ok false => (st, Outcome.raised (PyError.redis expectedQueuedMsg))
      | Except.ok true =>
        -- a fresh detached Future is stored with the post-processor and call
        let fid := st.nextFid
        ({ st with nextFid := fid + 1,
                   txQueue := st.txQueue ++ [⟨fid, post, call⟩] },
         Outcome.futureRef fid)
    else
      let r2 := match post with
        | some g => g r
        | none => r
      let st2 := match call with
        | some c => { st with pipelinedCalls := st.pipelinedCalls.erase c }
        | none => st
      (st2, Outcome.value r2)

/-- Model of `_send_command(*args)`: the exact bytes written to the transport —
`*K\r\n` then `$L\r\n<arg>\r\n` per argument. -/
def sendCommand (args : List Bytes) : Bytes :=
  strBytes ("*" ++ toString args.length) ++ CRLF ++
    (args.map (fun a => strBytes ("$" ++ toString a.length) ++ CRLF ++ a ++ CRLF)).flatten

/-- The send half of `_query`: create the `PipelinedCall(args[0],
set_blocking)`, add it to `_pipelined_calls`, and write the encoded
command. -/
def querySend (st : ProtoState) (args : List Bytes) (blocking : Bool) :
    ProtoState × PipelinedCall × Bytes :=
  let call : PipelinedCall := ⟨st.nextCid, args.headD [], blocking⟩
  ({ st with pipelinedCalls := st.pipelinedCalls ++ [call],
             nextCid := st.nextCid + 1 },
   call, sendCommand args)

/-- Aggregate result of a `_query` call. -/
structure QueryRun where
  state : ProtoState
  outcome : Outcome
  wire : Bytes
  call : PipelinedCall

/-- Model of `_query(*args, _bypass, post_process_func, set_blocking)`: send, then
await the answer (whose eventual resolution value is `result`). -/
def query (st : ProtoState) (args : List Bytes) (result : Answer)
    (bypass : Bool) (post : Option (Answer → Answer)) (blocking : Bool) :
    QueryRun :=
  let (st1, call, wire) := querySend st args blocking
  let (st2, out) := getAnswer st1 result bypass post (some call)
  ⟨st2, out, wire, call⟩

/-- Message of the `RedisException` raised by `connection_lost`. -/
def connectionLostMsg : Bytes := strBytes "Connection lost"

/-- Model of `connection_lost(exc)`: pop every future still in `self._queue` and
`set_exception` it with `RedisException('Connection lost: ...')`.  Nothing
else is touched — in particular `_transaction_response_queue` is left as
it is.  The second component is the list of completions performed. -/
def connectionLost (st : ProtoState) : ProtoState × List (Nat × Answer) :=
  ({ st with queue := [] },
   st.queue.map (fun f => (f, Answer.err connectionLostMsg)))

/-- Test `isinstance(answer, Exception)` for decoded reply values. -/
def isException : Answer → Bool
  | Answer.err _ => true
  | _ => false

/-- Message of `RedisException('Not in transaction')`. -/
def notInTransactionMsg : Bytes := strBytes "Not in transaction"

/-- Message of `RedisException('Transaction failed.')`. -/
def transactionFailedMsg : Bytes := strBytes "Transaction failed."

/-- The `for f in multi_bulk_reply` loop of `_exec`: one iteration per
child of the EXEC multi-bulk (`count` many), awaiting the child value,
`popleft`-ing the stored `(future, post_process_func, call)` entry, and
completing the detached future — `set_exception` for an `Exception` child,
otherwise post-process, discard the pipelined call and `set_result`.
Returns the completions `(fid, value, is_exception)` in order and the
updated `_pipelined_calls`; `none` when the loop cannot complete normally
(`popleft` from an exhausted deque raises `IndexError`, or a child future
that is never resolved suspends forever; the partial effects of such a run
are not modelled since no theorem exercises them). -/
def execLoop : Nat → List Answer → List TxEntry → List PipelinedCall →
    Option (List (Nat × Answer × Bool) × List PipelinedCall)
  | 0, _, _, calls => some ([], calls)
  | k + 1, ans, txq, calls =>
    match ans with
    | [] => none
    | a :: ansRest =>
      match txq with
      | [] => none
      | e :: txqRest =>
        if isException a then
          (execLoop k ansRest txqRest calls).map
            (fun r => ((e.fid, a, true) :: r.1, r.2))
        else
          let a2 := match e.post with
            | some g => g a
            | none => a
          let calls2 := match e.call with
            | some c => calls.erase c
            | none => calls
          (execLoop k ansRest txqRest calls2).map
            (fun r => ((e.fid, a2, false) :: r.1, r.2))

/-- Model of `_exec()`: take the stored transaction entries, send `EXEC` with
`_bypass=True` (`result` being the decoded reply to it), and dispatch the
children (`children` being their eventual values) to the stored entries.
Returns the new state, the completions of the detached user futures, and
the exception the coroutine raised, if any.  Note the `None` test guarding
`RedisException('Transaction failed.')`: the decoder only ever produces
`None` for null *bulk* replies — a `*-1\r\n` frame arrives as a
`MultiBulkReply` with `count = -1`. -/
def execModel (st : ProtoState) (result : Answer) (children : List Answer) :
    ProtoState × List (Nat × Answer × Bool) × Option PyError :=
  if !st.inTransaction then
    (st, [], some (PyError.redis notInTransactionMsg))
  else
    let pending := st.txQueue
    let st1 := { st with txQueue := [] }   -- set to None
    let run := query st1 [strBytes "exec"] result true none false
    match run.outcome with
    | Outcome.raised e => (run.state, [], some e)
    | Outcome.futureRef _ => (run.state, [], none)  -- unreachable: _bypass=True
    | Outcome.value r =>
      match r with
      | Answer.nil => (run.state, [], some (PyError.redis transactionFailedMsg))
      | Answer.multiBulk n =>
        match execLoop n.toNat children pending run.state.pipelinedCalls with
        | none => (run.state, [], some PyError.indexError)
        | some (res, calls2) =>
          ({ run.state with pipelinedCalls := calls2, txQueue := [],
                            inTransaction := false },
           res, none)
      | _ => (run.state, [], some PyError.typeError)

/-- Model of `_discard()`: clear the transaction state *first*, then send `DISCARD`
and `assert result == StatusReply('OK')`.  The queued entries are simply
dropped; no stored future is completed (the empty third component is the
list of completions performed on them). -/
def discardModel (st : ProtoState) (result : Answer) :
    ProtoState × Outcome × List (Nat × Answer) × Bytes :=
  if !st.inTransaction then
    (st, Outcome.raised (PyError.redis notInTransactionMsg), [], [])
  else
    let st1 := { st with txQueue := [], inTransaction := false }
    let run := query st1 [strBytes "discard"] result false none false
    match run.outcome with
    | Outcome.value r =>
      match pyEqStatus r (strBytes "OK") with
      | Except.error e => (run.state, Outcome.raised e, [], run.wire)
      | Except.ok true => (run.state, Outcome.value r, [], run.wire)
      | Except.ok false => (run.state, Outcome.raised PyError.assertError, [], run.wire)
    | o => (run.state, o, [], run.wire)

/-! ## The pool (`Connection`) -/

/-- The three mode flags of a protocol that feed `in_use`:
`in_blocking_call`, `in_pubsub`, `in_transaction`. -/
structure ProtoFlags where
  inBlockingCall : Bool
  inPubsub : Bool
  inTransaction : Bool
deriving DecidableEq, Repr

/-- Model of `RedisProtocol.in_use`. -/
def inUse (p : ProtoFlags) : Bool :=
  p.inBlockingCall || p.inPubsub || p.inTransaction

/-- Model of `Connection._shuffle_protocols`: rotate the engine list by one. -/
def shuffleProtocols (l : List ProtoFlags) : List ProtoFlags :=
  l.drop 1 ++ l.take 1

/-- Model of `Connection._get_free_protocol`: rotate, then return the first engine
that is not in use (`none` when every engine is busy). -/
def getFreeProtocol (l : List ProtoFlags) :
    List ProtoFlags × Option ProtoFlags :=
  let l2 := shuffleProtocols l
  (l2, l2.find? (fun p => !(inUse p)))

/-- Message of the `RedisException` raised by `Connection.__getattr__` when
no engine is free. -/
def poolExhaustedMsg : Bytes :=
  strBytes "All connection in the pool are in use. Please increase the poolsize."

/-- The engine-selection part of `Connection.__getattr__` for a command
name: bind the command on the first free engine, or raise. -/
def poolSelect (l : List ProtoFlags) :
    List ProtoFlags × Except Bytes ProtoFlags :=
  match getFreeProtocol l with
  | (l2, some p) => (l2, Except.ok p)
  | (l2, none) => (l2, Except.error poolExhaustedMsg)

/-! ## Well-formed RESP frames

The decoder is flat: a `*N` header does not change parser state, so for
decoding purposes a stream of frames is a concatenation of the six
line-level shapes below.  Numeric fields are carried as the raw digit
bytes together with the condition that `int()` accepts them. -/

/-- One wire-level RESP frame (a multi-bulk header counts as its own
frame; its children follow as further frames). -/
inductive Frame where
  | status (s : Bytes)             -- +<s>\r\n
  | error (s : Bytes)              -- -<s>\r\n
  | int (s : Bytes)                -- :<s>\r\n
  | nilBulk (s : Bytes)            -- $<s>\r\n with int(s) = -1
  | bulk (s : Bytes) (payload : Bytes)  -- $<s>\r\n<payload>\r\n, int(s) = len(payload)
  | multi (s : Bytes)              -- *<s>\r\n
deriving DecidableEq, Repr

/-- Bytes of a frame on the wire. -/
def encodeFrame : Frame → Bytes
  | Frame.status s => 43 :: s ++ CRLF
  | Frame.error s => 45 :: s ++ CRLF
  | Frame.int s => 58 :: s ++ CRLF
  | Frame.nilBulk s => 36 :: s ++ CRLF
  | Frame.bulk s p => 36 :: s ++ CRLF ++ p ++ CRLF
  | Frame.multi s => 42 :: s ++ CRLF

/-- Structural well-formedness (the RESP wire grammar): the header line
contains no `\r\n` and its numeric field parses, matching the declared
payload length for bulk frames.  Payload bytes are unrestricted — RESP
itself allows any bytes. -/
def WFFrameShape : Frame → Prop
  | Frame.status s => findCRLF s = none
  | Frame.error s => findCRLF s = none
  | Frame.int s => findCRLF s = none ∧ (pyInt? s).isSome
  | Frame.nilBulk s => findCRLF s = none ∧ pyInt? s = some (-1)
  | Frame.bulk s p => findCRLF s = none ∧ pyInt? s = some (p.length : Int)
  | Frame.multi s => findCRLF s = none ∧ (pyInt? s).isSome

instance : DecidablePred WFFrameShape := fun fr => by
  cases fr <;> simp only [WFFrameShape] <;> infer_instance

/-- A frame the decoder handles without raising: structurally well-formed,
and additionally its status line decodes as ASCII
(`_handle_status_reply` calls `line.decode('ascii')`) and its bulk
payload decodes as utf-8 (`_handle_bulk_reply_part` calls `_decode`).
Error lines are wrapped undecoded, so they need no restriction. -/
def WFFrame (fr : Frame) : Prop :=
  WFFrameShape fr ∧
    match fr with
    | Frame.status s => s.all (fun b => decide (b ≤ 127)) = true
    | Frame.bulk _ p => validUtf8 p = true
    | _ => True

instance : DecidablePred WFFrame := fun fr => by
  cases fr <;> simp only [WFFrame, WFFrameShape] <;> infer_instance

/-- Concatenation of the wire bytes of a frame sequence. -/
def encFrames : List Frame → Bytes
  | [] => []
  | fr :: fs => encodeFrame fr ++ encFrames fs

/-- The reply the decoder emits for one well-formed frame. -/
def frameAnswer : Frame → Answer
  | Frame.status s => Answer.status s
  | Frame.error s => Answer.err s
  | Frame.int s => Answer.int ((pyInt? s).getD 0)
  | Frame.nilBulk _ => Answer.nil
  | Frame.bulk _ p => Answer.bulk p
  | Frame.multi s => Answer.multiBulk ((pyInt? s).getD 0)

/-- Concatenation of a chunk list (the bytes the chunks deliver in total). -/
def concatChunks : List Bytes → Bytes
  | [] => []
  | c :: cs => c ++ concatChunks cs

/-! ## Lemmas about `findCRLF` -/

theorem findCRLF_bound {l : Bytes} {i : Nat} (h : findCRLF l = some i) :
    i + 2 ≤ l.length := by
  induction l generalizing i with
  | nil => simp [findCRLF] at h
  | cons b rest ih =>
    match rest, h with
    | [], h => simp [findCRLF] at h
    | c :: t, h =>
      rw [findCRLF] at h
      by_cases hbc : b = 13 ∧ c = 10
      · simp [hbc] at h
        simp [← h, List.length_cons]
      · simp [hbc] at h
        obtain ⟨j, hj, rfl⟩ := h
        have := ih hj
        simp [List.length_cons] at this ⊢
        omega

theorem findCRLF_append {a : Bytes} {i : Nat} (b : Bytes)
    (h : findCRLF a = some i) : findCRLF (a ++ b) = some i := by
  induction a generalizing i with
  | nil => simp [findCRLF] at h
  | cons x rest ih =>
    match rest, h with
    | [], h => simp [findCRLF] at h
    | c :: t, h =>
      rw [findCRLF] at h
      rw [List.cons_append, List.cons_append, findCRLF]
      by_cases hbc : x = 13 ∧ c = 10
      · simp [hbc] at h ⊢
        omega
      · simp [hbc] at h ⊢
        obtain ⟨j, hj, rfl⟩ := h
        exact ⟨j, ih hj, rfl⟩

theorem findCRLF_none_append_crlf {a : Bytes} (b : Bytes)
    (h : findCRLF a = none) : findCRLF (a ++ 13 :: 10 :: b) = some a.length := by
  induction a with
  | nil => simp [findCRLF]
  | cons x rest ih =>
    match rest, h, ih with
    | [], _, _ =>
      simp [findCRLF]
    | c :: t, h, ih =>
      rw [findCRLF] at h
      by_cases hbc : x = 13 ∧ c = 10
      · simp [hbc] at h
      · rw [List.cons_append, List.cons_append, findCRLF]
        simp [hbc] at h ⊢
        rw [← List.cons_append, ih h]
        simp

theorem findCRLF_cons_none {b : Nat} {s : Bytes} (hb : b ≠ 13)
    (hs : findCRLF s = none) : findCRLF (b :: s) = none := by
  match s with
  | [] => simp [findCRLF]
  | c :: t =>
    rw [findCRLF]
    simp [hb, hs]

/-- Splitting at the first `\r\n` reconstructs the byte string. -/
theorem findCRLF_split {l : Bytes} {i : Nat} (h : findCRLF l = some i) :
    l = l.take i ++ 13 :: 10 :: l.drop (i + 2) := by
  induction l generalizing i with
  | nil => simp [findCRLF] at h
  | cons b rest ih =>
    match rest, h with
    | [], h => simp [findCRLF] at h
    | c :: t, h =>
      rw [findCRLF] at h
      by_cases hbc : b = 13 ∧ c = 10
      · simp [hbc] at h
        subst h
        simp [hbc.1, hbc.2]
      · simp [hbc] at h
        obtain ⟨j, hj, rfl⟩ := h
        have := ih hj
        calc b :: c :: t = b :: (c :: t) := rfl
          _ = b :: ((c :: t).take j ++ 13 :: 10 :: (c :: t).drop (j + 2)) := by rw [← this]
          _ = (b :: c :: t).take (j + 1) ++ 13 :: 10 :: (b :: c :: t).drop (j + 1 + 2) := by
              simp [List.take_succ_cons, List.drop_succ_cons]

/-! ## Unfolding lemmas for the decoder loop -/

/-- Any fuel of at least `buffer.length` computes the fully drained loop. -/
theorem dataLoopFuel_congr : ∀ (f1 f2 : Nat) (s : DState),
    s.buffer.length ≤ f1 → s.buffer.length ≤ f2 →
    dataLoopFuel f1 s = dataLoopFuel f2 s := by
  intro f1
  induction f1 with
  | zero =>
    intro f2 s h1 _
    have hb : s.buffer = [] := List.length_eq_zero.mp (Nat.le_zero.mp h1)
    match f2 with
    | 0 => rfl
    | f2 + 1 => simp [dataLoopFuel, hb, findCRLF]
  | succ k ih =>
    intro f2 s h1 h2
    match f2 with
    | 0 =>
      have hb : s.buffer = [] := List.length_eq_zero.mp (Nat.le_zero.mp h2)
      simp [dataLoopFuel, hb, findCRLF]
    | m + 1 =>
      rw [dataLoopFuel, dataLoopFuel]
      match hf : findCRLF s.buffer with
      | none => rfl
      | some i =>
        have hbound := findCRLF_bound hf
        have hlen : (s.buffer.drop (i + 2)).length ≤ k ∧
            (s.buffer.drop (i + 2)).length ≤ m := by
          simp [List.length_drop]
          omega
        simp only
        rw [ih m _ hlen.1 hlen.2]

/-- Unfolding `dataLoop` when the buffer holds no complete line: the loop body never
runs. -/
theorem dataLoop_none {s : DState} (h : findCRLF s.buffer = none) :
    dataLoop s = (s, [], true) := by
  rw [dataLoop]
  match hl : s.buffer.length with
  | 0 => rfl
  | n + 1 => simp [dataLoopFuel, h]

/-- Unfolding `dataLoop` when the buffer holds a complete line: split it off,
dispatch it, and continue (or stop if the handler raised). -/
theorem dataLoop_some {s : DState} {i : Nat} (h : findCRLF s.buffer = some i) :
    dataLoop s =
      (let step := consumeLine s (s.buffer.take i)
       let rest := s.buffer.drop (i + 2)
       if step.2.2 then
         let next := dataLoop { step.1 with buffer := rest }
         (next.1, step.2.1 ++ next.2.1, next.2.2)
       else ({ step.1 with buffer := rest }, step.2.1, false)) := by
  have hbound := findCRLF_bound h
  rw [dataLoop]
  match hl : s.buffer.length, hbound with
  | n + 1, _ =>
    rw [dataLoopFuel]
    rw [h]
    simp only
    have hlen : (s.buffer.drop (i + 2)).length ≤ n := by
      simp [List.length_drop]
      omega
    have hlen2 : (s.buffer.drop (i + 2)).length ≤ (s.buffer.drop (i + 2)).length :=
      Nat.le_refl _
    rw [dataLoop]
    rw [dataLoopFuel_congr n ((s.buffer.drop (i + 2)).length) _ hlen hlen2]

/-! ## Chunking invariance of the decoder

`data_received` only ever appends to the buffer and drains complete lines,
so — as long as no handler raises — a run over `buffer ++ y` factors
through the run over `buffer` followed by a run over the leftover plus
`y`. -/

/-- The line handlers never read the buffer: dispatching a line from a
state with a different buffer only changes the buffer of the result. -/
theorem consumeLine_buffer (s : DState) (b line : Bytes) :
    consumeLine { s with buffer := b } line =
      ({ (consumeLine s line).1 with buffer := b }, (consumeLine s line).2) := by
  by_cases hib : s.inBulk
  · simp only [consumeLine, bulkReplyPart, hib, if_true]
    split_ifs <;> rfl
  · have hib2 : s.inBulk = false := by simpa using hib
    simp only [consumeLine, lineReceived, handleBulkHeader, hib2,
      Bool.false_eq_true, if_false]
    split_ifs <;> try rfl
    all_goals
      cases h : pyInt? (line.drop 1) <;> simp [h, hib2] <;>
        (try (split_ifs <;> simp [hib2]))

/-- Appending more bytes to a run that completes without an exception
continues it: the morphism property behind chunking invariance. -/
theorem dataLoop_append (s : DState) (y : Bytes) (h : (dataLoop s).2.2 = true) :
    dataLoop { s with buffer := s.buffer ++ y } =
      (let first := dataLoop s
       let next := dataLoop { first.1 with buffer := first.1.buffer ++ y }
       (next.1, first.2.1 ++ next.2.1, next.2.2)) := by
  match hf : findCRLF s.buffer with
  | none =>
    rw [dataLoop_none hf]
    simp
  | some i =>
    have hbound := findCRLF_bound hf
    have hfy : findCRLF (s.buffer ++ y) = some i := findCRLF_append y hf
    have htake : (s.buffer ++ y).take i = s.buffer.take i :=
      List.take_append_of_le_length (by omega)
    have hdrop : (s.buffer ++ y).drop (i + 2) = s.buffer.drop (i + 2) ++ y :=
      List.drop_append_of_le_length (by omega)
    rw [dataLoop_some hf] at h ⊢
    have hstep : dataLoop { s with buffer := s.buffer ++ y } =
        (let step := consumeLine { s with buffer := s.buffer ++ y }
          ((s.buffer ++ y).take i)
         let rest := (s.buffer ++ y).drop (i + 2)
         if step.2.2 then
           let next := dataLoop { step.1 with buffer := rest }
           (next.1, step.2.1 ++ next.2.1, next.2.2)
         else ({ step.1 with buffer := rest }, step.2.1, false)) :=
      dataLoop_some (s := { s with buffer := s.buffer ++ y }) hfy
    rw [hstep]
    simp only [htake, hdrop, consumeLine_buffer s (s.buffer ++ y) (s.buffer.take i)]
    match hok : (consumeLine s (s.buffer.take i)).2.2 with
    | false =>
      simp [hok] at h
    | true =>
      simp only [hok] at h
      simp only [if_true] at h
      simp only [show (true = true) = True from by simp, if_true] at h ⊢
      have hrec := dataLoop_append
        { (consumeLine s (s.buffer.take i)).1 with buffer := s.buffer.drop (i + 2) } y
        (by simpa using h)
      simp only at hrec
      rw [hrec]
      simp [List.append_assoc]
termination_by s.buffer.length
decreasing_by
  have := findCRLF_bound hf
  simp [List.length_drop]
  omega

/-- If a run over `buffer ++ y` completes without an exception, so does
the run over `buffer` alone. -/
theorem dataLoop_ok_of_append (s : DState) (y : Bytes)
    (h : (dataLoop { s with buffer := s.buffer ++ y }).2.2 = true) :
    (dataLoop s).2.2 = true := by
  match hf : findCRLF s.buffer with
  | none =>
    rw [dataLoop_none hf]
  | some i =>
    have hbound := findCRLF_bound hf
    have hfy : findCRLF (s.buffer ++ y) = some i := findCRLF_append y hf
    have htake : (s.buffer ++ y).take i = s.buffer.take i :=
      List.take_append_of_le_length (by omega)
    have hdrop : (s.buffer ++ y).drop (i + 2) = s.buffer.drop (i + 2) ++ y :=
      List.drop_append_of_le_length (by omega)
    rw [dataLoop_some (s := { s with buffer := s.buffer ++ y }) hfy] at h
    simp only [htake, hdrop,
      consumeLine_buffer s (s.buffer ++ y) (s.buffer.take i)] at h
    rw [dataLoop_some hf]
    match hok : (consumeLine s (s.buffer.take i)).2.2 with
    | false =>
      simp [hok] at h
    | true =>
      simp only [hok] at h
      simp only [if_true] at h
      have hrec := dataLoop_ok_of_append
        { (consumeLine s (s.buffer.take i)).1 with buffer := s.buffer.drop (i + 2) } y
        (by simpa using h)
      simp only [hok]
      simpa using hrec
termination_by s.buffer.length
decreasing_by
  have := findCRLF_bound hf
  simp [List.length_drop]
  omega

/-- After a run that completes without an exception the leftover buffer
holds no complete line. -/
theorem dataLoop_buffer_ok (s : DState) (h : (dataLoop s).2.2 = true) :
    findCRLF (dataLoop s).1.buffer = none := by
  match hf : findCRLF s.buffer with
  | none =>
    rw [dataLoop_none hf]
    exact hf
  | some i =>
    rw [dataLoop_some hf] at h ⊢
    match hok : (consumeLine s (s.buffer.take i)).2.2 with
    | false =>
      simp [hok] at h
    | true =>
      simp only [hok] at h
      simp only [if_true] at h
      have hrec := dataLoop_buffer_ok
        { (consumeLine s (s.buffer.take i)).1 with buffer := s.buffer.drop (i + 2) }
        (by simpa using h)
      simp only [hok]
      simpa using hrec
termination_by s.buffer.length
decreasing_by
  have := findCRLF_bound hf
  simp [List.length_drop]
  omega

/-- Feeding any chunking of a byte string through successive
`data_received` calls computes the same run as feeding it at once,
provided the single run raises no exception and the starting buffer holds
no complete line. -/
theorem feedAll_eq (cs : List Bytes) (s : DState)
    (hbuf : findCRLF s.buffer = none)
    (hok : (dataLoop { s with buffer := s.buffer ++ concatChunks cs }).2.2 = true) :
    feedAll s cs =
      ((dataLoop { s with buffer := s.buffer ++ concatChunks cs }).1,
       (dataLoop { s with buffer := s.buffer ++ concatChunks cs }).2.1) := by
  induction cs generalizing s with
  | nil =>
    have hs : ({ s with buffer := s.buffer ++ concatChunks [] } : DState) = s := by
      simp [concatChunks]
    rw [hs] at hok ⊢
    rw [dataLoop_none hbuf]
    rfl
  | cons c cs ih =>
    have hassoc : ({ s with buffer := s.buffer ++ concatChunks (c :: cs) } : DState)
        = { ({ s with buffer := s.buffer ++ c } : DState) with
            buffer := ({ s with buffer := s.buffer ++ c } : DState).buffer ++ concatChunks cs } := by
      simp [concatChunks, List.append_assoc]
    rw [hassoc] at hok ⊢
    have hok1 : (dataLoop { s with buffer := s.buffer ++ c }).2.2 = true :=
      dataLoop_ok_of_append _ _ hok
    have hsplit := dataLoop_append { s with buffer := s.buffer ++ c } (concatChunks cs) hok1
    simp only at hsplit
    rw [hsplit] at hok ⊢
    have hok2 : (dataLoop
        { (dataLoop { s with buffer := s.buffer ++ c }).1 with
          buffer := (dataLoop { s with buffer := s.buffer ++ c }).1.buffer ++ concatChunks cs }).2.2
        = true := by simpa using hok
    have hbuf2 : findCRLF (dataLoop { s with buffer := s.buffer ++ c }).1.buffer = none :=
      dataLoop_buffer_ok _ hok1
    have hih := ih (dataLoop { s with buffer := s.buffer ++ c }).1 hbuf2 hok2
    show feedAll s (c :: cs) = _
    rw [feedAll]
    simp only [dataReceived]
    rw [hih]

/-! ## Decoding well-formed frames -/

/-- Draining a bulk body: with `a` the part of the body already
accumulated and `p` the remaining payload bytes, the loop reassembles the
split pieces until the trailing `\r\n`, emits the payload, and continues
in line mode on `rest`. -/
theorem pyTake_exact (x y : Bytes) : pyTake (x ++ y) (x.length : Int) = x := by
  rw [pyTake, if_pos (by positivity)]
  simp [List.take_left]

theorem dataLoop_bulk_body (p a rest : Bytes) (hv : validUtf8 (a ++ p) = true) :
    dataLoop ⟨p ++ 13 :: 10 :: rest, true, ((a.length + p.length : Nat) : Int), a⟩ =
      (let next := dataLoop ⟨rest, false, 0, []⟩
       (next.1, Answer.bulk (a ++ p) :: next.2.1, next.2.2)) := by
  match hf : findCRLF p with
  | none =>
    have hfb : findCRLF (p ++ 13 :: 10 :: rest) = some p.length :=
      findCRLF_none_append_crlf rest hf
    rw [dataLoop_some
      (s := ⟨p ++ 13 :: 10 :: rest, true, ((a.length + p.length : Nat) : Int), a⟩) hfb]
    have htake : (p ++ 13 :: 10 :: rest).take p.length = p := List.take_left p _
    have hdrop : (p ++ 13 :: 10 :: rest).drop (p.length + 2) = rest := by
      rw [List.drop_append 2]
      rfl
    have hcast : (((a.length + p.length : Nat)) : Int) = ((a ++ p).length : Int) := by
      simp
    have hpt : pyTake (a ++ p ++ CRLF) ((a.length + p.length : Nat) : Int)
        = a ++ p := by
      rw [hcast]
      exact pyTake_exact (a ++ p) CRLF
    have hcond : ((a.length + p.length : Nat) : Int)
        < (((a ++ p ++ CRLF).length : Nat) : Int) := by
      simp only [CRLF, List.length_append, List.length_cons, List.length_nil]
      push_cast
      omega
    have hvalid : validUtf8 (pyTake (a ++ p ++ CRLF)
        ((a.length + p.length : Nat) : Int)) = true := by
      rw [hpt]
      exact hv
    simp only [htake, hdrop, consumeLine, bulkReplyPart, if_true]
    rw [if_pos hcond, if_pos hvalid]
    simp only [hpt]
    simp
  | some i =>
    have hbound := findCRLF_bound hf
    have hfb : findCRLF (p ++ 13 :: 10 :: rest) = some i := findCRLF_append _ hf
    rw [dataLoop_some
      (s := ⟨p ++ 13 :: 10 :: rest, true, ((a.length + p.length : Nat) : Int), a⟩) hfb]
    have htake : (p ++ 13 :: 10 :: rest).take i = p.take i :=
      List.take_append_of_le_length (by omega)
    have hdrop : (p ++ 13 :: 10 :: rest).drop (i + 2)
        = p.drop (i + 2) ++ 13 :: 10 :: rest :=
      List.drop_append_of_le_length (by omega)
    have hre : (a ++ p.take i ++ CRLF) ++ p.drop (i + 2) = a ++ p := by
      have hsplit : p.take i ++ 13 :: 10 :: p.drop (i + 2) = p :=
        (findCRLF_split hf).symm
      simp only [CRLF, List.append_assoc, List.cons_append, List.nil_append]
      rw [hsplit]
    have hcond2 : ¬ (((a.length + p.length : Nat) : Int)
        < (((a ++ p.take i ++ CRLF).length : Nat) : Int)) := by
      simp only [CRLF, List.length_append, List.length_cons, List.length_nil,
        List.length_take]
      push_cast
      omega
    simp only [htake, hdrop, consumeLine, bulkReplyPart, if_true]
    rw [if_neg hcond2]
    have hlen : ((a ++ p.take i ++ CRLF).length + (p.drop (i + 2)).length : Nat)
        = a.length + p.length := by
      simp [CRLF, List.length_take, List.length_drop]
      omega
    have hv2 : validUtf8 ((a ++ p.take i ++ CRLF) ++ p.drop (i + 2)) = true := by
      rw [hre]
      exact hv
    have hih := dataLoop_bulk_body (p.drop (i + 2)) (a ++ p.take i ++ CRLF) rest hv2
    rw [hlen] at hih
    rw [hre] at hih
    simp only
    rw [hih]
    simp
termination_by p.length
decreasing_by
  simp [List.length_drop]
  omega

/-- Parser length field after a frame (only a completed bulk resets it). -/
def afterFrameLen : Frame → Int → Int
  | Frame.bulk _ _, _ => 0
  | _, L => L

/-- Parser accumulator after a frame. -/
def afterFrameAccum : Frame → Bytes → Bytes
  | Frame.bulk _ _, _ => []
  | _, A => A

/-- Splitting off a header line `b <s> \r\n` in line mode. -/
theorem dataLoop_header (b : Nat) (s rest : Bytes) (L : Int) (A : Bytes)
    (hb : b ≠ 13) (hs : findCRLF s = none) :
    dataLoop ⟨(b :: s) ++ 13 :: 10 :: rest, false, L, A⟩ =
      (let step := lineReceived ⟨(b :: s) ++ 13 :: 10 :: rest, false, L, A⟩ (b :: s)
       let nextSt := { step.1 with buffer := rest }
       if step.2.2 then
         let next := dataLoop nextSt
         (next.1, step.2.1 ++ next.2.1, next.2.2)
       else (nextSt, step.2.1, false)) := by
  have hfb : findCRLF ((b :: s) ++ 13 :: 10 :: rest) = some (s.length + 1) := by
    have h2 := findCRLF_none_append_crlf (a := b :: s) rest (findCRLF_cons_none hb hs)
    simpa using h2
  rw [dataLoop_some (s := ⟨(b :: s) ++ 13 :: 10 :: rest, false, L, A⟩) hfb]
  have htake : ((b :: s) ++ 13 :: 10 :: rest).take (s.length + 1) = b :: s :=
    List.take_left' (by simp)
  have hdrop : ((b :: s) ++ 13 :: 10 :: rest).drop (s.length + 1 + 2) = rest := by
    have h3 : ((b :: s) ++ 13 :: 10 :: rest).drop ((b :: s).length + 2) = rest := by
      rw [List.drop_append 2]
      rfl
    simp only [List.length_cons] at h3
    exact h3
  dsimp only
  rw [htake, hdrop]
  simp [consumeLine]

/-- Decoding one well-formed frame at the head of the buffer in line mode:
its reply is emitted and the loop continues on the remaining bytes. -/
theorem dataLoop_frame (fr : Frame) (rest : Bytes) (L : Int) (A : Bytes)
    (h : WFFrame fr) :
    dataLoop ⟨encodeFrame fr ++ rest, false, L, A⟩ =
      (let next := dataLoop ⟨rest, false, afterFrameLen fr L, afterFrameAccum fr A⟩
       (next.1, frameAnswer fr :: next.2.1, next.2.2)) := by
  cases fr with
  | status s =>
    obtain ⟨hcr, hascii⟩ := h
    have hsh : (encodeFrame (Frame.status s) ++ rest : Bytes)
        = (43 :: s) ++ 13 :: 10 :: rest := by
      simp [encodeFrame, CRLF, List.append_assoc]
    rw [hsh, dataLoop_header 43 s rest L A (by omega) hcr]
    simp [lineReceived, hascii, frameAnswer, afterFrameLen, afterFrameAccum]
  | error s =>
    obtain ⟨hcr, -⟩ := h
    have hsh : (encodeFrame (Frame.error s) ++ rest : Bytes)
        = (45 :: s) ++ 13 :: 10 :: rest := by
      simp [encodeFrame, CRLF, List.append_assoc]
    rw [hsh, dataLoop_header 45 s rest L A (by omega) hcr]
    simp [lineReceived, frameAnswer, afterFrameLen, afterFrameAccum]
  | int s =>
    obtain ⟨⟨hcr, hn⟩, -⟩ := h
    obtain ⟨n, hn⟩ := Option.isSome_iff_exists.mp hn
    have hsh : (encodeFrame (Frame.int s) ++ rest : Bytes)
        = (58 :: s) ++ 13 :: 10 :: rest := by
      simp [encodeFrame, CRLF, List.append_assoc]
    rw [hsh, dataLoop_header 58 s rest L A (by omega) hcr]
    simp [lineReceived, hn, frameAnswer, afterFrameLen, afterFrameAccum]
  | multi s =>
    obtain ⟨⟨hcr, hn⟩, -⟩ := h
    obtain ⟨n, hn⟩ := Option.isSome_iff_exists.mp hn
    have hsh : (encodeFrame (Frame.multi s) ++ rest : Bytes)
        = (42 :: s) ++ 13 :: 10 :: rest := by
      simp [encodeFrame, CRLF, List.append_assoc]
    rw [hsh, dataLoop_header 42 s rest L A (by omega) hcr]
    simp [lineReceived, hn, frameAnswer, afterFrameLen, afterFrameAccum]
  | nilBulk s =>
    obtain ⟨⟨hcr, hn⟩, -⟩ := h
    have hsh : (encodeFrame (Frame.nilBulk s) ++ rest : Bytes)
        = (36 :: s) ++ 13 :: 10 :: rest := by
      simp [encodeFrame, CRLF, List.append_assoc]
    rw [hsh, dataLoop_header 36 s rest L A (by omega) hcr]
    simp [lineReceived, handleBulkHeader, hn, frameAnswer, afterFrameLen,
      afterFrameAccum]
  | bulk s p =>
    obtain ⟨⟨hcr, hn⟩, hv⟩ := h
    have hsh : (encodeFrame (Frame.bulk s p) ++ rest : Bytes)
        = (36 :: s) ++ 13 :: 10 :: (p ++ 13 :: 10 :: rest) := by
      simp [encodeFrame, CRLF, List.append_assoc]
    rw [hsh, dataLoop_header 36 s (p ++ 13 :: 10 :: rest) L A (by omega) hcr]
    have hne : ¬ ((p.length : Int) = -1) := by omega
    have hbody := dataLoop_bulk_body p [] rest (by simpa using hv)
    have hlen : ((([] : Bytes).length + p.length : Nat) : Int) = (p.length : Int) := by
      simp
    rw [hlen] at hbody
    simp [lineReceived, handleBulkHeader, hn, hne, hbody, frameAnswer,
      afterFrameLen, afterFrameAccum]

/-- Decoding the concatenation of well-formed frames from line mode emits
exactly one reply per frame, in order, with no exception, and drains the
buffer. -/
theorem dataLoop_frames (fs : List Frame) (L : Int) (A : Bytes)
    (h : ∀ fr ∈ fs, WFFrame fr) :
    ∃ L2 A2, dataLoop ⟨encFrames fs, false, L, A⟩ =
      (⟨[], false, L2, A2⟩, fs.map frameAnswer, true) := by
  induction fs generalizing L A with
  | nil =>
    refine ⟨L, A, ?_⟩
    rw [dataLoop_none (by simp [encFrames, findCRLF])]
    simp [encFrames]
  | cons fr fs ih =>
    have hfr : WFFrame fr := h fr (by simp)
    have hrest : ∀ g ∈ fs, WFFrame g := fun g hg => h g (by simp [hg])
    obtain ⟨L2, A2, hih⟩ := ih (afterFrameLen fr L) (afterFrameAccum fr A) hrest
    refine ⟨L2, A2, ?_⟩
    rw [show encFrames (fr :: fs) = encodeFrame fr ++ encFrames fs from rfl]
    rw [dataLoop_frame fr (encFrames fs) L A hfr]
    simp [hih]

theorem concatChunks_map_single (l : Bytes) :
    concatChunks (l.map (fun b => [b])) = l := by
  induction l with
  | nil => rfl
  | cons b t ih => simp [concatChunks, ih]

/-! ## The claims -/

/-- Claim C6 (counterexample): chunking invariance fails on the
structurally well-formed frame sequence `+\xff\r\n  +OK\r\n`.  In a
single chunk, `_handle_status_reply`'s `line.decode('ascii')` raises on
`\xff` and the exception aborts the rest of that `data_received` call, so
nothing is emitted and `+OK\r\n` is stranded in the buffer; fed one byte
at a time, the exception escapes one `data_received` call, later calls
continue (the event loop only logs the callback's exception), and
`Status('OK')` is emitted. -/
theorem c6_counterexample :
    (∀ fr ∈ [Frame.status [255], Frame.status [79, 75]], WFFrameShape fr)
    ∧ (feedAll initState
        ((encFrames [Frame.status [255], Frame.status [79, 75]]).map
          (fun b => [b]))).2
      = [Answer.status [79, 75]]
    ∧ (dataReceived initState
        (encFrames [Frame.status [255], Frame.status [79, 75]])).2.1 = []
    ∧ [Answer.status [79, 75]] ≠ ([] : List Answer) :=
  ⟨by decide, by decide, by decide, by decide⟩

/-- Claim C6 (amended): the decoder is chunking-invariant on the frames
its handlers accept without raising — for every sequence of well-formed
RESP frames whose status lines decode as ASCII and whose bulk payloads
are valid utf-8 (`WFFrame`), feeding the concatenated bytes to
`data_received` one byte at a time produces the same sequence of emitted
replies as feeding the whole concatenation in a single chunk. -/
theorem c6_decoder_chunking_invariant (fs : List Frame)
    (h : ∀ fr ∈ fs, WFFrame fr) :
    (feedAll initState ((encFrames fs).map (fun b => [b]))).2
      = (dataReceived initState (encFrames fs)).2.1 := by
  obtain ⟨L2, A2, hrun⟩ := dataLoop_frames fs 0 [] h
  have hstate : ({ initState with buffer := initState.buffer ++ encFrames fs } : DState)
      = ⟨encFrames fs, false, 0, []⟩ := by simp [initState]
  have hok : (dataLoop
      { initState with buffer := initState.buffer ++ encFrames fs }).2.2 = true := by
    rw [hstate, hrun]
  have hconcat : concatChunks ((encFrames fs).map (fun b => [b])) = encFrames fs :=
    concatChunks_map_single _
  have hfeed := feedAll_eq ((encFrames fs).map (fun b => [b])) initState
    (by rfl) (by rw [hconcat]; exact hok)
  rw [hfeed]
  simp [dataReceived, hconcat]

/-- Witness for C6: a concrete well-formed frame sequence (the MGET
scenario `*3 / $1 x / $-1 / $1 z`). -/
theorem c6_decoder_chunking_invariant_witness :
    (∀ fr ∈ [Frame.multi [51], Frame.bulk [49] [120],
             Frame.nilBulk [45, 49], Frame.bulk [49] [122]], WFFrame fr)
    ∧ (feedAll initState
        ((encFrames [Frame.multi [51], Frame.bulk [49] [120],
                     Frame.nilBulk [45, 49], Frame.bulk [49] [122]]).map (fun b => [b]))).2
      = (dataReceived initState
          (encFrames [Frame.multi [51], Frame.bulk [49] [120],
                      Frame.nilBulk [45, 49], Frame.bulk [49] [122]])).2.1 :=
  ⟨by decide, c6_decoder_chunking_invariant _ (by decide)⟩

/-- The slot ids freshly created for the children of a `MultiBulk(n)`
header, in creation order. -/
def freshSlots (st : QState) (n : Int) : List Nat :=
  (List.range n.toNat).map (fun k => st.nextFid + k)

/-- Claim C2: outside pub/sub, every decoded reply pops the head slot of
the reply queue and resolves it with that reply; a `MultiBulk(N)` reply
with `N ≥ 0` additionally pushes exactly `N` fresh slots at the head of
the queue, in order, so the next `N` replies feed the children. -/
theorem c2_dispatch_pops_head_pushes_children (st : QState) (a : Answer)
    (hne : st.queue ≠ [])
    (hinv : ∀ f ∈ st.queue, f < st.nextFid) :
    (dispatchAnswer st false a).resolutions
        = st.resolutions ++ [(st.queue.headD 0, a)]
    ∧ (∀ n, a = Answer.multiBulk n → 0 ≤ n →
        (dispatchAnswer st false a).queue = freshSlots st n ++ st.queue.tail
        ∧ (freshSlots st n).length = n.toNat
        ∧ ∀ f ∈ freshSlots st n, f ∉ st.queue)
    ∧ ((∀ n, a ≠ Answer.multiBulk n) →
        (dispatchAnswer st false a).queue = st.queue.tail) := by
  obtain ⟨hd, tl, hq⟩ : ∃ hd tl, st.queue = hd :: tl := by
    cases hqq : st.queue with
    | nil => exact absurd hqq hne
    | cons x xs => exact ⟨x, xs, rfl⟩
  have hfreshNotMem : ∀ n, ∀ f ∈ freshSlots st n, f ∉ st.queue := by
    intro n f hf hmem
    simp [freshSlots] at hf
    obtain ⟨k, _, hk⟩ := hf
    have := hinv f hmem
    omega
  refine ⟨?_, ?_, ?_⟩
  · cases a <;>
      simp [dispatchAnswer, handleMultiBulk, pushAnswer, hq, freshSlots]
  · intro n ha _
    subst ha
    refine ⟨?_, by simp [freshSlots], hfreshNotMem n⟩
    simp [dispatchAnswer, handleMultiBulk, pushAnswer, hq, freshSlots]
  · intro hnot
    cases a <;> simp [dispatchAnswer, pushAnswer, hq]
    exact absurd rfl (hnot _)

/-- Witness for C2: a queue `[5, 7]` receiving `MultiBulk(2)` with the
fresh-id counter at 10. -/
theorem c2_dispatch_witness :
    (dispatchAnswer ⟨[5, 7], 10, []⟩ false (Answer.multiBulk 2)).resolutions
        = [(5, Answer.multiBulk 2)]
    ∧ (dispatchAnswer ⟨[5, 7], 10, []⟩ false (Answer.multiBulk 2)).queue
        = freshSlots ⟨[5, 7], 10, []⟩ 2 ++ [7] := by
  have h := c2_dispatch_pops_head_pushes_children ⟨[5, 7], 10, []⟩
    (Answer.multiBulk 2) (by decide) (by decide)
  exact ⟨h.1, (h.2.1 2 rfl (by decide)).1⟩

/-- Claim C4: while in `Transactional` mode with `_bypass` unset, a real
reply equal to `Status("QUEUED")` stores a fresh detached future together
with the post-processor and the call in the transaction queue and returns
it; any other reply raises an error. -/
theorem c4_transaction_requires_queued (st : ProtoState) (result : Answer)
    (post : Option (Answer → Answer)) (call : Option PipelinedCall)
    (htx : st.inTransaction = true)
    (hfresh : ∀ e ∈ st.txQueue, e.fid < st.nextFid) :
    (result = Answer.status (strBytes "QUEUED") →
      getAnswer st result false post call
        = ({ st with nextFid := st.nextFid + 1,
                     txQueue := st.txQueue ++ [⟨st.nextFid, post, call⟩] },
           Outcome.futureRef st.nextFid)
      ∧ ∀ e ∈ st.txQueue, e.fid ≠ st.nextFid)
    ∧ (result ≠ Answer.status (strBytes "QUEUED") →
        ∃ e, (getAnswer st result false post call).2 = Outcome.raised e) := by
  constructor
  · intro hr
    subst hr
    refine ⟨?_, fun e he => by have := hfresh e he; omega⟩
    simp [getAnswer, htx, pyEqStatus]
  · intro hne
    cases result with
    | err e => exact ⟨PyError.redis e, rfl⟩
    | status s =>
      have hs : ¬ (s = strBytes "QUEUED") := fun hs => hne (by rw [hs])
      refine ⟨PyError.redis expectedQueuedMsg, ?_⟩
      simp [getAnswer, htx, pyEqStatus, hs]
    | int n => exact ⟨PyError.attrError, by simp [getAnswer, htx, pyEqStatus]⟩
    | bulk p => exact ⟨PyError.attrError, by simp [getAnswer, htx, pyEqStatus]⟩
    | nil => exact ⟨PyError.attrError, by simp [getAnswer, htx, pyEqStatus]⟩
    | multiBulk n => exact ⟨PyError.attrError, by simp [getAnswer, htx, pyEqStatus]⟩

/-- Witness for C4: a `Status("QUEUED")` reply inside a transaction stores
a fresh detached future. -/
theorem c4_transaction_witness :
    (⟨[], 0, [], 0, true, []⟩ : ProtoState).inTransaction = true
    ∧ getAnswer ⟨[], 0, [], 0, true, []⟩ (Answer.status (strBytes "QUEUED"))
        false none none
      = (⟨[], 1, [], 0, true, [⟨0, none, none⟩]⟩, Outcome.futureRef 0) := by
  have h := (c4_transaction_requires_queued ⟨[], 0, [], 0, true, []⟩
    (Answer.status (strBytes "QUEUED")) none none rfl (by simp)).1 rfl
  exact ⟨rfl, h.1.trans (by rfl)⟩

/-- Claim C5: pool selection rotates the engine list by exactly one, never
returns an engine whose `in_use` flag is set, and fails with the
pool-exhausted `RedisException` when every engine is busy. -/
theorem c5_pool_selection (l : List ProtoFlags) :
    (poolSelect l).1 = l.drop 1 ++ l.take 1
    ∧ (∀ p, (poolSelect l).2 = Except.ok p → inUse p = false)
    ∧ ((∀ p ∈ l, inUse p = true) →
        (poolSelect l).2 = Except.error poolExhaustedMsg) := by
  have poolSelect_eq : poolSelect l =
      (match (shuffleProtocols l).find? (fun p => !(inUse p)) with
       | some p => (shuffleProtocols l, Except.ok p)
       | none => (shuffleProtocols l, Except.error poolExhaustedMsg)) := by
    unfold poolSelect getFreeProtocol
    dsimp only
    cases (shuffleProtocols l).find? (fun p => !(inUse p)) <;> rfl
  refine ⟨?_, ?_, ?_⟩
  · rw [poolSelect_eq]
    cases hf : (shuffleProtocols l).find? (fun p => !(inUse p)) <;>
      simp [shuffleProtocols]
  · intro p hp
    rw [poolSelect_eq] at hp
    revert hp
    cases hf : (shuffleProtocols l).find? (fun p => !(inUse p)) with
    | none =>
      intro hp
      simp at hp
    | some q =>
      intro hp
      simp at hp
      subst hp
      have := List.find?_some hf
      simpa using this
  · intro hall
    rw [poolSelect_eq]
    cases hf : (shuffleProtocols l).find? (fun p => !(inUse p)) with
    | none => rfl
    | some q =>
      exfalso
      have hq := List.find?_some hf
      have hmem : q ∈ shuffleProtocols l := List.mem_of_find?_eq_some hf
      rw [shuffleProtocols] at hmem
      have hql : q ∈ l := by
        rcases List.mem_append.mp hmem with h1 | h1
        · exact List.mem_of_mem_drop h1
        · exact List.mem_of_mem_take h1
      have := hall q hql
      simp [this] at hq

/-- Witness for C5: a two-engine pool where one engine is blocking and the
other is in a transaction fails with the pool-exhausted error. -/
theorem c5_pool_witness :
    (∀ p ∈ [(⟨true, false, false⟩ : ProtoFlags), ⟨false, false, true⟩],
        inUse p = true)
    ∧ (poolSelect [(⟨true, false, false⟩ : ProtoFlags), ⟨false, false, true⟩]).2
        = Except.error poolExhaustedMsg :=
  ⟨by decide, (c5_pool_selection _).2.2 (by decide)⟩

/-- Claim C1 (code bug): with one queued command in a transaction, the
`*-1\r\n` reply to EXEC decodes to a `MultiBulkReply` with `count = -1` —
not to `None`, the only value `_exec` tests for — so `_exec` raises no
`Transaction failed.` error, iterates zero children, completes normally
(leaving `Normal` mode), and the stored detached future is neither
resolved nor failed: the completion list is empty. -/
theorem c1_exec_nil_multibulk_bug :
    (dataReceived initState (strBytes "*-1\r\n")).2.1 = [Answer.multiBulk (-1)]
    ∧ Answer.multiBulk (-1) ≠ Answer.nil
    ∧ execModel ⟨[], 1, [], 5, true, [⟨0, none, none⟩]⟩ (Answer.multiBulk (-1)) []
        = (⟨[], 1, [], 6, false, []⟩, [], none) :=
  ⟨by decide, by decide, rfl⟩

/-- Claim C3 (counterexample): `connection_lost` on an engine whose
transaction queue holds one entry completes nothing (the completion list
is empty) and leaves the entry in place — its detached future stays
unresolved, so not every future is failed with the connection-lost
error. -/
theorem c3_counterexample :
    (connectionLost ⟨[], 1, [], 0, true, [⟨0, none, none⟩]⟩).2 = []
    ∧ ((connectionLost ⟨[], 1, [], 0, true, [⟨0, none, none⟩]⟩).1.txQueue.length = 1) :=
  ⟨rfl, rfl⟩

/-- Claim C3 (amended): `connection_lost` fails every pending reply-queue
slot with the connection-lost `RedisException` and empties the reply
queue, but does not touch the transaction queue: its entries are left
unresolved. -/
theorem c3_connection_lost_fails_reply_slots_only (st : ProtoState) :
    (connectionLost st).1.queue = []
    ∧ ((connectionLost st).2.map Prod.fst) = st.queue
    ∧ (∀ r ∈ (connectionLost st).2, r.2 = Answer.err connectionLostMsg)
    ∧ (connectionLost st).1.txQueue = st.txQueue := by
  refine ⟨rfl, ?_, ?_, rfl⟩
  · simp only [connectionLost, List.map_map]
    have hcomp : (Prod.fst ∘ fun f : Nat => (f, Answer.err connectionLostMsg)) = id :=
      rfl
    rw [hcomp, List.map_id]
  · intro r hr
    simp [connectionLost] at hr
    obtain ⟨f, _, hf⟩ := hr
    simp [← hf]

/-- Claim C7 (counterexample): a line whose first byte is `!` is merely
printed and skipped — no exception is raised, no future is failed, the
engine is not closed, and decoding continues normally with the next
frame. -/
theorem c7_counterexample :
    dataReceived initState (strBytes "!bad\r\n+OK\r\n")
      = (⟨[], false, 0, []⟩, [Answer.status (strBytes "OK")], true) := by
  decide

/-- Claim C7 (amended): a received line whose first byte is none of `+`,
`-`, `$`, `*`, `:` is printed and ignored — `_line_received` emits
nothing, raises nothing, and leaves the parser state unchanged, so
decoding continues with the following lines. -/
theorem c7_unknown_first_byte_ignored (s : DState) (line : Bytes)
    (h43 : line.take 1 ≠ [43]) (h45 : line.take 1 ≠ [45])
    (h36 : line.take 1 ≠ [36]) (h42 : line.take 1 ≠ [42])
    (h58 : line.take 1 ≠ [58]) :
    lineReceived s line = (s, [], true) := by
  simp [lineReceived, h43, h45, h36, h42, h58]

/-- Witness for the amended C7 at the line `!bad`. -/
theorem c7_unknown_first_byte_witness :
    ((strBytes "!bad").take 1 ≠ [43])
    ∧ lineReceived initState (strBytes "!bad") = (initState, [], true) :=
  ⟨by decide, c7_unknown_first_byte_ignored initState (strBytes "!bad")
    (by decide) (by decide) (by decide) (by decide) (by decide)⟩

/-- Claim C8 (counterexample): `_discard` on an engine whose transaction
queue holds one entry completes nothing — the queued user future is
dropped, not failed — even though the reply is `Status("OK")`. -/
theorem c8_counterexample :
    ((discardModel ⟨[], 9, [], 0, true, [⟨7, none, none⟩]⟩
        (Answer.status (strBytes "OK"))).2.2.1 = ([] : List (Nat × Answer)))
    ∧ (⟨[], 9, [], 0, true, [⟨7, none, none⟩]⟩ : ProtoState).txQueue.length = 1 :=
  ⟨rfl, rfl⟩

/-- Claim C8 (amended): `_discard` clears the transaction queue (dropping
the queued user futures unresolved — no completion is performed), returns
the engine to `Normal` mode, sends `DISCARD`, and its `assert` accepts the
reply exactly when it is `Status("OK")`. -/
theorem c8_discard_drops_queued_futures (st : ProtoState) (result : Answer)
    (htx : st.inTransaction = true) :
    (discardModel st result).1.txQueue = []
    ∧ (discardModel st result).1.inTransaction = false
    ∧ (discardModel st result).2.2.1 = []
    ∧ (discardModel st result).2.2.2 = sendCommand [strBytes "discard"]
    ∧ ((∃ a, (discardModel st result).2.1 = Outcome.value a)
        ↔ result = Answer.status (strBytes "OK")) := by
  cases result with
  | err e =>
    simp [discardModel, htx, query, querySend, getAnswer]
  | status s =>
    by_cases hs : s = strBytes "OK" <;>
      simp [discardModel, htx, query, querySend, getAnswer, pyEqStatus, hs]
  | int n =>
    simp [discardModel, htx, query, querySend, getAnswer, pyEqStatus]
  | bulk p =>
    simp [discardModel, htx, query, querySend, getAnswer, pyEqStatus]
  | nil =>
    simp [discardModel, htx, query, querySend, getAnswer, pyEqStatus]
  | multiBulk n =>
    simp [discardModel, htx, query, querySend, getAnswer, pyEqStatus]

/-- Witness for the amended C8: discarding a transaction with one queued
entry and an `OK` reply. -/
theorem c8_discard_witness :
    (⟨[], 9, [], 0, true, [⟨7, none, none⟩]⟩ : ProtoState).inTransaction = true
    ∧ (discardModel ⟨[], 9, [], 0, true, [⟨7, none, none⟩]⟩
        (Answer.status (strBytes "OK"))).1.txQueue = [] := by
  have h := c8_discard_drops_queued_futures
    ⟨[], 9, [], 0, true, [⟨7, none, none⟩]⟩ (Answer.status (strBytes "OK")) rfl
  exact ⟨rfl, h.1⟩

/-- Claim C9 (counterexample): an `Error` reply makes `yield from f` raise
before `_pipelined_calls.remove(call)` runs, so the `PipelinedCall` stays
in the active set after the user-visible result (the exception) has been
delivered. -/
theorem c9_counterexample :
    (query ⟨[], 0, [], 0, false, []⟩ [strBytes "get", strBytes "k"]
        (Answer.err (strBytes "ERR boom")) false none false).state.pipelinedCalls
      = [⟨0, strBytes "get", false⟩]
    ∧ (query ⟨[], 0, [], 0, false, []⟩ [strBytes "get", strBytes "k"]
        (Answer.err (strBytes "ERR boom")) false none false).outcome
      = Outcome.raised (PyError.redis (strBytes "ERR boom")) :=
  ⟨rfl, rfl⟩

/-- Claim C9 (amended): outside a transaction, the `PipelinedCall` is
added to `_pipelined_calls` when the request is sent; when the reply is
not an `Error` it is removed exactly once after the result resolves
(leaving the set as it was); when the reply is an `Error`, the exception
propagates and the call is left in the set.  The same holds for
EXEC-dispatched entries: an `Error` child leaves the stored call in the
set, a successful child removes it. -/
theorem c9_call_left_on_error (st : ProtoState) (args : List Bytes)
    (result : Answer) (post : Option (Answer → Answer)) (blocking : Bool)
    (hnotx : st.inTransaction = false)
    (hfresh : ∀ c ∈ st.pipelinedCalls, c.cid < st.nextCid) :
    (querySend st args blocking).2.1 ∈ (querySend st args blocking).1.pipelinedCalls
    ∧ ((∀ e, result ≠ Answer.err e) →
        (query st args result false post blocking).call
            ∉ (query st args result false post blocking).state.pipelinedCalls
        ∧ (query st args result false post blocking).state.pipelinedCalls
            = st.pipelinedCalls)
    ∧ (∀ e, result = Answer.err e →
        (query st args result false post blocking).call
            ∈ (query st args result false post blocking).state.pipelinedCalls)
    ∧ (∀ (fid : Nat) (c : PipelinedCall) (calls : List PipelinedCall) (e : Bytes),
        execLoop 1 [Answer.err e] [⟨fid, post, some c⟩] calls
          = some ([(fid, Answer.err e, true)], calls))
    ∧ (∀ (fid : Nat) (c : PipelinedCall) (calls : List PipelinedCall) (s : Bytes),
        execLoop 1 [Answer.status s] [⟨fid, none, some c⟩] calls
          = some ([(fid, Answer.status s, false)], calls.erase c)) := by
  have hcallfresh : (⟨st.nextCid, args.head?.getD [], blocking⟩ : PipelinedCall)
      ∉ st.pipelinedCalls := by
    intro hmem
    have := hfresh _ hmem
    simp at this
  refine ⟨by simp [querySend], ?_, ?_, ?_, ?_⟩
  · intro hne
    have herase : (st.pipelinedCalls
          ++ [(⟨st.nextCid, args.head?.getD [], blocking⟩ : PipelinedCall)]).erase
            ⟨st.nextCid, args.head?.getD [], blocking⟩
        = st.pipelinedCalls := by
      rw [List.erase_append_right _ hcallfresh, List.erase_cons_head,
        List.append_nil]
    cases result with
    | err e => exact absurd rfl (hne e)
    | status s =>
      constructor <;>
        simp [query, querySend, getAnswer, hnotx, herase, hcallfresh]
    | int n =>
      constructor <;>
        simp [query, querySend, getAnswer, hnotx, herase, hcallfresh]
    | bulk p =>
      constructor <;>
        simp [query, querySend, getAnswer, hnotx, herase, hcallfresh]
    | nil =>
      constructor <;>
        simp [query, querySend, getAnswer, hnotx, herase, hcallfresh]
    | multiBulk n =>
      constructor <;>
        simp [query, querySend, getAnswer, hnotx, herase, hcallfresh]
  · intro e he
    subst he
    simp [query, querySend, getAnswer]
  · intro fid c calls e
    simp [execLoop, isException]
  · intro fid c calls s
    simp [execLoop, isException]

/-- Witness for the amended C9: a successful reply removes the call. -/
theorem c9_call_witness :
    ((⟨[], 0, [], 0, false, []⟩ : ProtoState).inTransaction = false)
    ∧ (query ⟨[], 0, [], 0, false, []⟩ [strBytes "get"]
        (Answer.status (strBytes "OK")) false none false).state.pipelinedCalls
      = [] := by
  have h := c9_call_left_on_error ⟨[], 0, [], 0, false, []⟩ [strBytes "get"]
    (Answer.status (strBytes "OK")) none false rfl (by simp)
  exact ⟨rfl, (h.2.1 (by simp)).2⟩

/-- Argument list of `set(key, value)`:
`self._query(b'set', self._encode(key), self._encode(value))`. -/
def setArgs (key value : String) : List Bytes :=
  [strBytes "set", strBytes key, strBytes value]

/-- Claim C10 (counterexample): the bytes written for
`set("hello", "world")` are not `*3\r\n$3\r\nSET\r\n...` — the command
name is sent lowercase (`b'set'`). -/
theorem c10_counterexample :
    (query ⟨[], 0, [], 0, false, []⟩ (setArgs "hello" "world")
        (Answer.status (strBytes "OK")) false none false).wire
      ≠ strBytes "*3\r\n$3\r\nSET\r\n$5\r\nhello\r\n$5\r\nworld\r\n" := by
  decide

/-- Claim C10 (amended): `set("hello", "world")` writes exactly
`*3\r\n$3\r\nset\r\n$5\r\nhello\r\n$5\r\nworld\r\n` to the transport, the
decoder turns the server's `+OK\r\n` into `StatusReply('OK')`, and the
command's future resolves to it. -/
theorem c10_set_wire_and_reply :
    (query ⟨[], 0, [], 0, false, []⟩ (setArgs "hello" "world")
        (Answer.status (strBytes "OK")) false none false).wire
      = strBytes "*3\r\n$3\r\nset\r\n$5\r\nhello\r\n$5\r\nworld\r\n"
    ∧ (dataReceived initState (strBytes "+OK\r\n")).2.1
      = [Answer.status (strBytes "OK")]
    ∧ (query ⟨[], 0, [], 0, false, []⟩ (setArgs "hello" "world")
        (Answer.status (strBytes "OK")) false none false).outcome
      = Outcome.value (Answer.status (strBytes "OK")) := by
  refine ⟨by decide, by decide, rfl⟩

end AsyncioRedis
